import Mathlib

/-!
Verification of the df-py fragment: block sampling (`util/blockrange.py`,
visible only through its tests, hence modelled from the spec), reward
allocation (`util/calcrewards.py`, likewise modelled from the spec), and
disbursement preparation (`util/dispense.py`, embedded from the source).
-/

namespace DFPy

/-- Errors raised by `BlockRange` construction.  Modelled from the spec:
`util/blockrange.py` is not part of the visible fragment (only its tests
are), so the validation taxonomy follows sections 4.1 and 7 of the spec. -/
inductive BRError where
  | invalidRange
  | invalidArgument
  deriving DecidableEq

/-- A validated block range.  Modelled from the spec: `util/blockrange.py`
is missing from the fragment; the fields follow the data model of
section 3 (`start`, `end`, `sampleCount`). -/
structure BlockRange where
  st : Int
  fin : Int
  numSamples : Nat
  deriving DecidableEq

/-- Validation of the `BlockRange` constructor.  Modelled from the spec:
`util/blockrange.py` is missing from the fragment.  Section 4.1 requires
`InvalidArgumentError` on any negative argument and `InvalidRangeError`
when `end < start`; section 8 property 2 fixes `getBlocks(1, -1, 5)` to
`InvalidArgumentError`, so the negativity check runs before the range
check. -/
def mkBlockRange (st fin numSamples : Int) : Except BRError BlockRange :=
  if st < 0 ∨ fin < 0 ∨ numSamples < 0 then .error .invalidArgument
  else if fin < st then .error .invalidRange
  else .ok ⟨st, fin, numSamples.toNat⟩

/-- The full closed interval of block heights from `st` to `fin`,
ascending. -/
def intervalList (st fin : Int) : List Int :=
  (List.range (fin + 1 - st).toNat).map (fun (i : Nat) => st + (i : Int))

/-- Block sampling.  Modelled from the spec: `util/blockrange.py` is
missing from the fragment.  Section 4.1: empty result when
`sampleCount = 0`, the full interval when `sampleCount ≥ available`,
otherwise `sampleCount` distinct draws without replacement, returned
sorted ascending.  Section 9 names shuffle-and-truncate behind an
injectable randomness source as the implementation pattern; the
`shuffled` argument models the outcome of that source, an arbitrary
permutation of the interval. -/
def getBlocks (b : BlockRange) (shuffled : List Int) : List Int :=
  if b.numSamples = 0 then []
  else if (intervalList b.st b.fin).length ≤ b.numSamples then
    intervalList b.st b.fin
  else
    List.insertionSort (· ≤ ·) (shuffled.take b.numSamples)

theorem getBlocks_mk (st fin : Int) (k : Nat) (shuffled : List Int) :
    getBlocks ⟨st, fin, k⟩ shuffled =
      if k = 0 then []
      else if (intervalList st fin).length ≤ k then intervalList st fin
      else List.insertionSort (· ≤ ·) (shuffled.take k) := rfl

theorem intervalList_length (st fin : Int) :
    (intervalList st fin).length = (fin + 1 - st).toNat := by
  simp [intervalList]

theorem mem_intervalList {st fin x : Int} :
    x ∈ intervalList st fin ↔ st ≤ x ∧ x ≤ fin := by
  simp only [intervalList, List.mem_map, List.mem_range]
  constructor
  · rintro ⟨i, hi, rfl⟩
    omega
  · rintro ⟨h1, h2⟩
    exact ⟨(x - st).toNat, by omega, by omega⟩

theorem intervalList_sorted (st fin : Int) :
    (intervalList st fin).Sorted (· < ·) := by
  show List.Pairwise _ _
  unfold intervalList
  refine (List.pairwise_lt_range _).map _ ?_
  intro a b hab
  omega

theorem intervalList_nodup (st fin : Int) : (intervalList st fin).Nodup :=
  (intervalList_sorted st fin).imp (fun hab => ne_of_lt hab)

theorem intervalList_singleton (st : Int) : intervalList st st = [st] := by
  have h : st + 1 - st = 1 := by omega
  simp [intervalList, h, List.range_succ]

/-- Claim C2: for `start ≥ 0`, `end ≥ start` and `sampleCount ≥ available`,
`getBlocks` returns exactly the full closed interval, every integer from
`start` to `end` sorted ascending; for `start = end` this is the singleton
`[start]`, and a sample count of `0` gives the empty sequence. -/
theorem getBlocks_full (st fin n : Int) (shuffled : List Int)
    (hst : 0 ≤ st) (hfin : st ≤ fin) (hn : fin - st + 1 ≤ n) :
    ∃ b, mkBlockRange st fin n = .ok b ∧
      getBlocks b shuffled = intervalList st fin ∧
      (getBlocks b shuffled).Sorted (· < ·) ∧
      (∀ x, x ∈ getBlocks b shuffled ↔ st ≤ x ∧ x ≤ fin) ∧
      (st = fin → getBlocks b shuffled = [st]) ∧
      ∀ b0, mkBlockRange st fin 0 = .ok b0 → getBlocks b0 shuffled = [] := by
  have hg : getBlocks ⟨st, fin, n.toNat⟩ shuffled = intervalList st fin := by
    rw [getBlocks_mk, if_neg (by omega),
      if_pos (by rw [intervalList_length]; omega)]
  refine ⟨⟨st, fin, n.toNat⟩, ?_, hg, ?_, ?_, ?_, ?_⟩
  · unfold mkBlockRange
    rw [if_neg (by omega), if_neg (by omega)]
  · rw [hg]
    exact intervalList_sorted st fin
  · intro x
    rw [hg]
    exact mem_intervalList
  · intro heq
    rw [hg, heq, intervalList_singleton]
  · intro b0 hb0
    unfold mkBlockRange at hb0
    rw [if_neg (by omega), if_neg (by omega)] at hb0
    injection hb0 with h0
    subst h0
    rw [getBlocks_mk, if_pos (by omega)]

/-- Witness for claim C2 at `(start, end, sampleCount) = (0, 3, 10)`, the
concrete case of `test_startAtZero`. -/
theorem getBlocks_full_witness :
    ∃ b, mkBlockRange 0 3 10 = .ok b ∧
      getBlocks b [] = intervalList 0 3 ∧
      (getBlocks b []).Sorted (· < ·) ∧
      (∀ x, x ∈ getBlocks b [] ↔ 0 ≤ x ∧ x ≤ 3) ∧
      ((0 : Int) = 3 → getBlocks b [] = [0]) ∧
      ∀ b0, mkBlockRange 0 3 0 = .ok b0 → getBlocks b0 [] = [] :=
  getBlocks_full 0 3 10 [] (by decide) (by decide) (by decide)

/-- Claim C3 counterexample: at `(start, end, sampleCount) = (1, -1, 5)` the
end precedes the start, yet construction raises `InvalidArgumentError`
(as section 8 property 2 of the spec requires), not `InvalidRangeError`. -/
theorem mkBlockRange_C3_counterexample :
    mkBlockRange 1 (-1) 5 = .error .invalidArgument ∧
      BRError.invalidArgument ≠ BRError.invalidRange :=
  ⟨rfl, by decide⟩

/-- Claim C3 amended: with all three arguments non-negative, `end < start`
raises `InvalidRangeError`; with any negative argument the constructor
raises `InvalidArgumentError` (the negativity check runs first); in every
invalid case the failure is at construction time and no `BlockRange` is
produced. -/
theorem mkBlockRange_validation (st fin n : Int) :
    (0 ≤ st → 0 ≤ fin → 0 ≤ n → fin < st →
        mkBlockRange st fin n = .error .invalidRange) ∧
    ((st < 0 ∨ fin < 0 ∨ n < 0) →
        mkBlockRange st fin n = .error .invalidArgument) ∧
    ((fin < st ∨ st < 0 ∨ fin < 0 ∨ n < 0) →
        ∀ b, mkBlockRange st fin n ≠ .ok b) := by
  unfold mkBlockRange
  refine ⟨?_, ?_, ?_⟩
  · intro h1 h2 h3 h4
    rw [if_neg (by omega), if_pos h4]
  · intro h
    rw [if_pos h]
  · intro h b
    by_cases hneg : st < 0 ∨ fin < 0 ∨ n < 0
    · rw [if_pos hneg]
      exact fun hc => Except.noConfusion hc
    · rw [if_neg hneg, if_pos (by omega)]
      exact fun hc => Except.noConfusion hc

/-- Witness for the amended claim C3 at the concrete inputs of
`test_failures`. -/
theorem mkBlockRange_validation_witness :
    mkBlockRange 20 10 5 = .error .invalidRange ∧
      mkBlockRange (-1) 10 5 = .error .invalidArgument ∧
      mkBlockRange 1 10 (-5) = .error .invalidArgument ∧
      ∀ b, mkBlockRange 20 10 5 ≠ .ok b :=
  ⟨(mkBlockRange_validation 20 10 5).1 (by decide) (by decide) (by decide)
      (by decide),
   (mkBlockRange_validation (-1) 10 5).2.1 (Or.inl (by decide)),
   (mkBlockRange_validation 1 10 (-5)).2.1 (Or.inr (Or.inr (by decide))),
   (mkBlockRange_validation 20 10 5).2.2 (Or.inl (by decide))⟩

/-- Claim C4: in the randomized branch (`0 < sampleCount < available`), for
every outcome of the randomness source (any permutation `shuffled` of the
interval), the result has exactly `sampleCount` pairwise-distinct
elements, each in `[start, end]`, sorted ascending. -/
theorem getBlocks_sample (st fin n : Int) (shuffled : List Int)
    (hst : 0 ≤ st) (hfin : st ≤ fin) (hn0 : 0 < n) (hn : n < fin - st + 1)
    (hperm : shuffled.Perm (intervalList st fin)) :
    ∃ b, mkBlockRange st fin n = .ok b ∧
      (getBlocks b shuffled).length = n.toNat ∧
      (getBlocks b shuffled).Nodup ∧
      (∀ x ∈ getBlocks b shuffled, st ≤ x ∧ x ≤ fin) ∧
      (getBlocks b shuffled).Sorted (· ≤ ·) := by
  have hlen : shuffled.length = (fin + 1 - st).toNat := by
    rw [hperm.length_eq, intervalList_length]
  have hg : getBlocks ⟨st, fin, n.toNat⟩ shuffled =
      List.insertionSort (· ≤ ·) (shuffled.take n.toNat) := by
    rw [getBlocks_mk, if_neg (by omega),
      if_neg (by rw [intervalList_length]; omega)]
  have hperm2 : (List.insertionSort (· ≤ ·) (shuffled.take n.toNat)).Perm
      (shuffled.take n.toNat) := List.perm_insertionSort _ _
  refine ⟨⟨st, fin, n.toNat⟩, ?_, ?_, ?_, ?_, ?_⟩
  · unfold mkBlockRange
    rw [if_neg (by omega), if_neg (by omega)]
  · rw [hg, hperm2.length_eq, List.length_take]
    omega
  · rw [hg]
    have h1 : shuffled.Nodup := hperm.nodup_iff.mpr (intervalList_nodup st fin)
    exact hperm2.nodup_iff.mpr (h1.sublist (List.take_sublist _ _))
  · intro x hx
    rw [hg] at hx
    have hx2 : x ∈ shuffled.take n.toNat := hperm2.mem_iff.mp hx
    have hx3 : x ∈ shuffled := List.take_subset _ _ hx2
    exact mem_intervalList.mp (hperm.mem_iff.mp hx3)
  · rw [hg]
    exact List.sorted_insertionSort _ _

/-- Witness for claim C4 at `(start, end, sampleCount) = (10, 12, 1)` with
the shuffle outcome `[11, 10, 12]`. -/
theorem getBlocks_sample_witness :
    ∃ b, mkBlockRange 10 12 1 = .ok b ∧
      (getBlocks b [11, 10, 12]).length = (1 : Int).toNat ∧
      (getBlocks b [11, 10, 12]).Nodup ∧
      (∀ x ∈ getBlocks b [11, 10, 12], 10 ≤ x ∧ x ≤ 12) ∧
      (getBlocks b [11, 10, 12]).Sorted (· ≤ ·) :=
  getBlocks_sample 10 12 1 [11, 10, 12] (by decide) (by decide) (by decide)
    (by decide) (by decide)

/-- One row of the rewards file: the header row `address,value`, or a data
row with an address string and a (not yet fixed-point) value.  Values are
carried as rationals. -/
inductive Row where
  | header
  | data (addr : String) (value : ℚ)
  deriving DecidableEq

/-- Modelled from the spec: `util/base18.py` is missing from the fragment;
sections 4.3 and 6 fix `toBase18` as `round(value * 10^18)` with round half
to even. -/
def toBase18 (v : ℚ) : ℤ :=
  let s := v * (10 : ℚ) ^ 18
  let f := ⌊s⌋
  if s - f < 1 / 2 then f
  else if 1 / 2 < s - f then f + 1
  else if f % 2 = 0 then f else f + 1

/-- The row loop of `csvToRewardsLists` (util/dispense.py) on the rows after
the first: each data row contributes its address, its value and `toBase18`
of its value, in file order.  A header row in a later position would fail
float parsing in the source, modelled as `none`. -/
def processRows : List Row → Option (List String × List ℚ × List ℤ)
  | [] => some ([], [], [])
  | Row.header :: _ => none
  | Row.data a v :: rest =>
    (processRows rest).map fun x => (a :: x.1, v :: x.2.1, toBase18 v :: x.2.2)

/-- The function `csvToRewardsLists` of util/dispense.py: row 0 is skipped
unconditionally (`if row_i == 0: pass`); every later row is parsed as a
data row. -/
def csvToRewardsLists : List Row → Option (List String × List ℚ × List ℤ)
  | [] => some ([], [], [])
  | _ :: rest => processRows rest

/-- The rows that `rewardsToCsv` (util/dispense.py) writes: the header, then
one data row per rewards entry, in mapping order. -/
def rewardsRows (rewards : List (String × ℚ)) : List Row :=
  Row.header :: rewards.map fun p => Row.data p.1 p.2

/-- A flat file system, pathname to file rows, for the file-existence
behaviour of util/dispense.py. -/
abbrev FileSys := List (String × List Row)

/-- The function `rewardsPathToFile` of util/dispense.py. -/
def rewardsPathToFile (path : String) : String := path ++ "/rewards.csv"

/-- The function `rewardsToCsv` of util/dispense.py: asserts that the
destination does not already exist, then writes the header row followed by
one row per rewards entry.  The first component is the failing assertion
message path when the file exists (`None` on success); the second is the
resulting file system. -/
def rewardsToCsv (rewards : List (String × ℚ)) (csvDir : String)
    (fs : FileSys) : Option String × FileSys :=
  match fs.lookup (rewardsPathToFile csvDir) with
  | some _ => (some (rewardsPathToFile csvDir), fs)
  | none => (none, (rewardsPathToFile csvDir, rewardsRows rewards) :: fs)

/-- The external contract interaction of `dispenseRewards`
(util/dispense.py): the amount passed to `approve` and the arguments passed
to `allocate`. -/
structure DispenseCall where
  approveAmount : ℤ
  allocateTos : List String
  allocateValues : List ℤ
  deriving DecidableEq

/-- The function `dispenseRewards` of util/dispense.py: reads the rewards
file, approves `sum(values_int)` and allocates `values_int` to `tos`. -/
def dispenseRewards (csvDir : String) (fs : FileSys) : Option DispenseCall :=
  (fs.lookup (rewardsPathToFile csvDir)).bind fun rows =>
    (csvToRewardsLists rows).bind fun x =>
      some ⟨x.2.2.sum, x.1, x.2.2⟩

theorem processRows_map (l : List (String × ℚ)) :
    processRows (l.map fun p => Row.data p.1 p.2) =
      some (l.map Prod.fst, l.map Prod.snd, l.map fun p => toBase18 p.2) := by
  induction l with
  | nil => rfl
  | cons p rest ih => simp [processRows, ih]

/-- Claim C5 counterexample: a rewards file naming the same address twice is
processed without any failure: `csvToRewardsLists` returns both entries,
the address list is not duplicate-free, and `dispenseRewards` goes on to
produce the contract call.  No duplicate check exists in util/dispense.py. -/
theorem csvToRewardsLists_duplicate_counterexample :
    csvToRewardsLists [Row.header, Row.data "0xA" 1, Row.data "0xA" 2] =
      some (["0xA", "0xA"], [1, 2], [toBase18 1, toBase18 2]) ∧
      ¬ (["0xA", "0xA"] : List String).Nodup ∧
      dispenseRewards "d"
          [("d/rewards.csv", [Row.header, Row.data "0xA" 1, Row.data "0xA" 2])] =
        some ⟨List.sum [toBase18 1, toBase18 2], ["0xA", "0xA"],
          [toBase18 1, toBase18 2]⟩ :=
  ⟨rfl, by decide, rfl⟩

/-- Claim C5 amended: the disbursement preparation performs no duplicate
check: every data row contributes its address to the output in file order,
duplicates included, and no error of any kind is raised. -/
theorem csvToRewardsLists_no_duplicate_check (r : Row)
    (l : List (String × ℚ)) :
    csvToRewardsLists (r :: l.map fun p => Row.data p.1 p.2) =
      some (l.map Prod.fst, l.map Prod.snd, l.map fun p => toBase18 p.2) :=
  processRows_map l

/-- Claim C6: `rewardsToCsv` fails whenever the destination rewards file
already exists and then leaves the file system, in particular the existing
file contents, unchanged; when the destination does not exist it succeeds
and writes the header plus the data rows there. -/
theorem rewardsToCsv_no_overwrite (rewards : List (String × ℚ))
    (csvDir : String) (fs : FileSys) :
    (∀ rows, fs.lookup (rewardsPathToFile csvDir) = some rows →
      rewardsToCsv rewards csvDir fs = (some (rewardsPathToFile csvDir), fs) ∧
      ((rewardsToCsv rewards csvDir fs).2).lookup (rewardsPathToFile csvDir) =
        some rows) ∧
    (fs.lookup (rewardsPathToFile csvDir) = none →
      rewardsToCsv rewards csvDir fs =
        (none, (rewardsPathToFile csvDir, rewardsRows rewards) :: fs)) := by
  constructor
  · intro rows hrows
    have hres : rewardsToCsv rewards csvDir fs =
        (some (rewardsPathToFile csvDir), fs) := by
      unfold rewardsToCsv
      rw [hrows]
    exact ⟨hres, by rw [hres]; exact hrows⟩
  · intro hnone
    unfold rewardsToCsv
    rw [hnone]

/-- Witness for claim C6: a file system already holding a rewards file at
the destination, and an empty one. -/
theorem rewardsToCsv_no_overwrite_witness :
    (rewardsToCsv [] "d" [("d/rewards.csv", [Row.header])] =
      (some (rewardsPathToFile "d"), [("d/rewards.csv", [Row.header])]) ∧
      ((rewardsToCsv [] "d" [("d/rewards.csv", [Row.header])]).2).lookup
        (rewardsPathToFile "d") = some [Row.header]) ∧
      rewardsToCsv [] "d" [] =
        (none, (rewardsPathToFile "d", rewardsRows []) :: []) :=
  ⟨(rewardsToCsv_no_overwrite [] "d" [("d/rewards.csv", [Row.header])]).1
      [Row.header] rfl,
   (rewardsToCsv_no_overwrite [] "d" []).2 rfl⟩

/-- Claim C7: writing a rewards mapping with distinct addresses and reading
it back reproduces exactly the written address list, and every read-back
value is within `10 ^ (-18)` of the written value (the model carries exact
rationals, so the difference is in fact zero). -/
theorem rewards_roundTrip (rewards : List (String × ℚ))
    (hnodup : (rewards.map Prod.fst).Nodup) :
    ∃ tos vfs vis,
      csvToRewardsLists (rewardsRows rewards) = some (tos, vfs, vis) ∧
      tos = rewards.map Prod.fst ∧
      vfs.length = rewards.length ∧
      ∀ i (h1 : i < vfs.length) (h2 : i < rewards.length),
        |vfs[i] - (rewards[i]).2| ≤ 1 / 10 ^ 18 := by
  have hcsv : csvToRewardsLists (rewardsRows rewards) =
      some (rewards.map Prod.fst, rewards.map Prod.snd,
        rewards.map fun p => toBase18 p.2) := by
    show processRows (rewards.map fun p => Row.data p.1 p.2) = _
    exact processRows_map rewards
  refine ⟨_, _, _, hcsv, rfl, by simp, ?_⟩
  intro i h1 h2
  have hv : (rewards.map Prod.snd)[i] = (rewards[i]).2 := by
    simp
  rw [hv, sub_self, abs_zero]
  positivity

/-- Witness for claim C7 at the one-entry mapping `[("0xA", 1/2)]`. -/
theorem rewards_roundTrip_witness :
    ∃ tos vfs vis,
      csvToRewardsLists (rewardsRows [("0xA", 1 / 2)]) = some (tos, vfs, vis) ∧
      tos = [("0xA", (1 : ℚ) / 2)].map Prod.fst ∧
      vfs.length = [("0xA", (1 : ℚ) / 2)].length ∧
      ∀ i (h1 : i < vfs.length) (h2 : i < [("0xA", (1 : ℚ) / 2)].length),
        |vfs[i] - ([("0xA", (1 : ℚ) / 2)][i]).2| ≤ 1 / 10 ^ 18 :=
  rewards_roundTrip [("0xA", 1 / 2)] (by simp)

/-- Claim C8: the amount approved equals exactly the sum of the individual
fixed-point amounts passed to the allocate call. -/
theorem dispenseRewards_approval (csvDir : String) (fs : FileSys)
    (c : DispenseCall) (h : dispenseRewards csvDir fs = some c) :
    c.approveAmount = c.allocateValues.sum := by
  unfold dispenseRewards at h
  cases hl : fs.lookup (rewardsPathToFile csvDir) with
  | none => rw [hl] at h; exact Option.noConfusion h
  | some rows =>
    rw [hl, Option.some_bind] at h
    cases hc : csvToRewardsLists rows with
    | none => rw [hc] at h; exact Option.noConfusion h
    | some t =>
      rw [hc, Option.some_bind] at h
      injection h with h
      subst h
      rfl

/-- Witness for claim C8 at a one-row rewards file. -/
theorem dispenseRewards_approval_witness :
    DispenseCall.approveAmount
        ⟨List.sum [toBase18 1], ["0xA"], [toBase18 1]⟩ =
      List.sum [toBase18 1] :=
  dispenseRewards_approval "d"
    [("d/rewards.csv", [Row.header, Row.data "0xA" 1])]
    ⟨List.sum [toBase18 1], ["0xA"], [toBase18 1]⟩ rfl

/-- Claim C10: the first row is discarded unconditionally: empty and
header-only files give three empty lists, the result never depends on the
content of the first row, and a data first row leaves no trace in the
output. -/
theorem csvToRewardsLists_skips_first_row :
    csvToRewardsLists ([] : List Row) = some ([], [], []) ∧
    csvToRewardsLists [Row.header] = some ([], [], []) ∧
    (∀ r1 r2 rest, csvToRewardsLists (r1 :: rest) =
      csvToRewardsLists (r2 :: rest)) ∧
    (∀ a v, csvToRewardsLists [Row.data a v] = some ([], [], [])) ∧
    (∀ a v rest, csvToRewardsLists (Row.data a v :: rest) = processRows rest) :=
  ⟨rfl, rfl, fun r1 r2 rest => rfl, fun a v => rfl, fun a v rest => rfl⟩

/-- One leaf of the stake and volume snapshots: a
`(chainId, baseToken, pool, lpAddress)` quadruple with its stake and volume
amounts.  Modelled from the spec: `util/calcrewards.py` is missing from the
fragment (only its callers in the tests are visible); the data model
follows section 3. -/
structure SVEntry where
  chainId : Nat
  baseToken : String
  pool : String
  lp : String
  stake : ℚ
  vol : ℚ

/-- Errors of the allocator, from sections 4.2 and 7 of the spec. -/
inductive AllocError where
  | invalidInput
  | noEligibleRecipients
  deriving DecidableEq

/-- The sum of weights over all addresses across all chains
(spec section 4.2). -/
def totalWeight (w : SVEntry → ℚ) (es : List SVEntry) : ℚ := (es.map w).sum

/-- Add one reward to a `(chainId, lpAddress)`-keyed association list,
summing with any existing entry: the aggregation step of spec
section 4.2. -/
def addReward (k : Nat × String) (v : ℚ) :
    List ((Nat × String) × ℚ) → List ((Nat × String) × ℚ)
  | [] => [(k, v)]
  | (k2, v2) :: rest =>
    if k = k2 then (k2, v2 + v) :: rest else (k2, v2) :: addReward k v rest

/-- Collapse per-pool shares into per-`(chainId, lpAddress)` rewards. -/
def aggregate : List ((Nat × String) × ℚ) → List ((Nat × String) × ℚ)
  | [] => []
  | (k, v) :: rest => addReward k v (aggregate rest)

/-- The sum of all reward amounts of an allocation. -/
def sumValues (l : List ((Nat × String) × ℚ)) : ℚ :=
  (l.map fun p => p.2).sum

/-- The allocator `calcRewards`.  Modelled from the spec:
`util/calcrewards.py` is missing from the fragment.  Section 4.2: validate
the inputs (`InvalidInputError` on a negative amount or negative budget),
compute a non-negative weight per quadruple — the exact weight formula is
an external policy, here the parameter `w`, which also absorbs the rate
table — normalise each share by the total weight, and aggregate by
`(chainId, lpAddress)`; zero total weight with zero budget gives the empty
allocation, zero total weight with positive budget is
`NoEligibleRecipientsError`. -/
def calcRewards (w : SVEntry → ℚ) (es : List SVEntry) (budget : ℚ) :
    Except AllocError (List ((Nat × String) × ℚ)) :=
  if (∃ e ∈ es, e.stake < 0 ∨ e.vol < 0) ∨ budget < 0 then
    .error .invalidInput
  else if totalWeight w es = 0 then
    if budget = 0 then .ok [] else .error .noEligibleRecipients
  else
    .ok (aggregate (es.map fun e =>
      ((e.chainId, e.lp), budget * w e / totalWeight w es)))

theorem sumValues_addReward (k : Nat × String) (v : ℚ)
    (l : List ((Nat × String) × ℚ)) :
    sumValues (addReward k v l) = sumValues l + v := by
  induction l with
  | nil => simp [addReward, sumValues]
  | cons p rest ih =>
    obtain ⟨k2, v2⟩ := p
    simp only [addReward]
    by_cases h : k = k2
    · rw [if_pos h]
      simp only [sumValues, List.map_cons, List.sum_cons]
      ring
    · rw [if_neg h]
      simp only [sumValues, List.map_cons, List.sum_cons] at ih ⊢
      rw [ih]
      ring

theorem sumValues_aggregate (l : List ((Nat × String) × ℚ)) :
    sumValues (aggregate l) = sumValues l := by
  induction l with
  | nil => rfl
  | cons p rest ih =>
    obtain ⟨k, v⟩ := p
    simp only [aggregate]
    rw [sumValues_addReward, ih]
    simp only [sumValues, List.map_cons, List.sum_cons]
    ring

/-- Claim C1: for every valid input (non-negative amounts, non-negative
weights, non-negative budget) with non-zero total weight, the allocator
succeeds and the sum over all chains and addresses of the reward amounts
differs from the budget by at most 1 percent of the budget; in this
exact-rational model the sum equals the budget, so the bound holds with
room to spare. -/
theorem calcRewards_conservation (w : SVEntry → ℚ) (es : List SVEntry)
    (budget : ℚ) (hvalid : ∀ e ∈ es, 0 ≤ e.stake ∧ 0 ≤ e.vol)
    (hw : ∀ e ∈ es, 0 ≤ w e) (hb : 0 ≤ budget)
    (hW : totalWeight w es ≠ 0) :
    ∃ rs, calcRewards w es budget = .ok rs ∧
      |sumValues rs - budget| ≤ (1 / 100) * budget := by
  have hval : ¬((∃ e ∈ es, e.stake < 0 ∨ e.vol < 0) ∨ budget < 0) := by
    rintro (⟨e, he, h | h⟩ | h)
    · exact absurd h (not_lt.mpr (hvalid e he).1)
    · exact absurd h (not_lt.mpr (hvalid e he).2)
    · exact absurd h (not_lt.mpr hb)
  refine ⟨aggregate (es.map fun e =>
    ((e.chainId, e.lp), budget * w e / totalWeight w es)), ?_, ?_⟩
  · unfold calcRewards
    rw [if_neg hval, if_neg hW]
  · rw [sumValues_aggregate]
    have hsum : sumValues (es.map fun e =>
        ((e.chainId, e.lp), budget * w e / totalWeight w es)) = budget := by
      unfold sumValues
      rw [List.map_map]
      have hfun : ((fun p => p.2) ∘ fun e : SVEntry =>
          ((e.chainId, e.lp), budget * w e / totalWeight w es)) =
          fun e : SVEntry => budget / totalWeight w es * w e := by
        funext e
        simp only [Function.comp]
        ring
      rw [hfun, List.sum_map_mul_left]
      have hT : (es.map w).sum = totalWeight w es := rfl
      rw [hT, div_mul_cancel₀ _ hW]
    rw [hsum, sub_self, abs_zero]
    positivity

/-- Witness for claim C1: one entry with stake `2`, stake-proportional
weights and budget `5`. -/
theorem calcRewards_conservation_witness :
    ∃ rs, calcRewards (fun e => e.stake) [⟨1, "OCEAN", "p", "lp1", 2, 3⟩] 5 =
        .ok rs ∧
      |sumValues rs - 5| ≤ (1 / 100) * 5 :=
  calcRewards_conservation (fun e => e.stake) [⟨1, "OCEAN", "p", "lp1", 2, 3⟩]
    5 (by intro e he; simp at he; subst he; norm_num)
    (by intro e he; simp at he; subst he; norm_num) (by norm_num)
    (by simp [totalWeight])

/-- Claim C9: with zero total weight, a zero budget yields the empty
allocation without error, and any positive budget yields
`NoEligibleRecipientsError` instead of an allocation. -/
theorem calcRewards_zeroWeight (w : SVEntry → ℚ) (es : List SVEntry)
    (hvalid : ∀ e ∈ es, 0 ≤ e.stake ∧ 0 ≤ e.vol)
    (hW : totalWeight w es = 0) :
    calcRewards w es 0 = .ok [] ∧
      ∀ budget, 0 < budget →
        calcRewards w es budget = .error .noEligibleRecipients := by
  have hvalgen : ∀ b : ℚ, 0 ≤ b →
      ¬((∃ e ∈ es, e.stake < 0 ∨ e.vol < 0) ∨ b < 0) := by
    intro b hbnn
    rintro (⟨e, he, h | h⟩ | h)
    · exact absurd h (not_lt.mpr (hvalid e he).1)
    · exact absurd h (not_lt.mpr (hvalid e he).2)
    · exact absurd h (not_lt.mpr hbnn)
  constructor
  · unfold calcRewards
    rw [if_neg (hvalgen 0 le_rfl), if_pos hW, if_pos rfl]
  · intro b hbpos
    unfold calcRewards
    rw [if_neg (hvalgen b hbpos.le), if_pos hW, if_neg (ne_of_gt hbpos)]

/-- Witness for claim C9 at the empty snapshot with budget `0` and
budget `5`. -/
theorem calcRewards_zeroWeight_witness :
    calcRewards (fun e => e.stake) [] 0 = .ok [] ∧
      calcRewards (fun e => e.stake) [] 5 = .error .noEligibleRecipients :=
  ⟨(calcRewards_zeroWeight (fun e => e.stake) [] (by simp) rfl).1,
   (calcRewards_zeroWeight (fun e => e.stake) [] (by simp) rfl).2 5
     (by norm_num)⟩

end DFPy
